import Mathlib

/-! Verification of the GangSTR expansion-aware realignment and
read-classification engine (src/realignment.cpp), via a shallow
embedding.  Sequences are lists of characters, the C++ int32_t values
are unbounded integers (no quantity in this core approaches 2^31), and
the floating-point threshold fraction is an exact rational. -/

namespace GangSTR

/-- Scoring configuration consumed by the engine.  The constants are
declared in realignment.h, which is not among the sources; per spec §6
they are injected: MATCH_SCORE, MISMATCH_SCORE, GAP_SCORE are signed
integers and MATCH_PERC_THRESHOLD is a fraction in (0,1]. -/
structure ScoreParams where
  MATCH_SCORE : Int
  MISMATCH_SCORE : Int
  GAP_SCORE : Int
  MATCH_PERC_THRESHOLD : ℚ

/-- Modelled from the spec: concrete representative values for the
scoring constants of the missing realignment.h, of the kinds spec §6
requires (signed integer scores with a positive match reward and
negative mismatch/gap penalties, threshold fraction in (0,1]).
Fields: MATCH_SCORE, MISMATCH_SCORE, GAP_SCORE, MATCH_PERC_THRESHOLD
(the fraction 4/5 given by its reduced numerator and denominator). -/
def specParams : ScoreParams :=
  ⟨3, -1, -2, Rat.mk' 4 5 (by norm_num) (by norm_num)⟩

/-- Modelled from the spec: a second value for the threshold fraction
of the missing realignment.h (9/10, larger than specParams' 4/5), used
to exercise threshold monotonicity. -/
def specParamsHi : ScoreParams :=
  ⟨3, -1, -2, Rat.mk' 9 10 (by norm_num) (by norm_num)⟩

/-- The sequential maximum computed by calc_score (realignment.cpp
lines 132-146): start from 0 and keep any strictly larger candidate,
in the order diagonal, up, left. -/
def cellMax (diag_score up_score left_score : Int) : Int :=
  let m1 := if diag_score > 0 then diag_score else 0
  let m2 := if up_score > m1 then up_score else m1
  if left_score > m2 then left_score else m2

/-- Read classes (spec §3; the SR_ constants of the missing
realignment.h, modelled from the spec's five listed classes). -/
inductive SingleReadType where
  | SR_PREFLANK
  | SR_POSTFLANK
  | SR_ENCLOSING
  | SR_IRR
  | SR_UNKNOWN
  deriving DecidableEq

/-- score_threshold of classify_realigned_read (line 175):
(int32_t)(MATCH_PERC_THRESHOLD * seq.size() * MATCH_SCORE), the C cast
truncating toward zero.  With the threshold fraction num/den (den > 0),
the product is the rational (num * len * MATCH_SCORE) / den, and its
truncation toward zero is the int32_t value Int.tdiv gives. -/
def scoreThreshold (p : ScoreParams) (len : Nat) : Int :=
  Int.tdiv (p.MATCH_PERC_THRESHOLD.num * (len : Int) * p.MATCH_SCORE)
    (p.MATCH_PERC_THRESHOLD.den : Int)

/-- The value the global MARGIN holds after expansion_aware_realign
set it at line 39: 4 * period - 1. -/
def currentMARGIN (motif : List Char) : Int := 4 * (motif.length : Int) - 1

/-- Interior cells of one matrix row, left to right.  Arguments: the
diagonal neighbor (previous row, previous column), the rest of the
previous row from the current column on, the left neighbor (current
row, previous column), and the remaining seq2 characters. -/
def fillRowAux (p : ScoreParams) (c1 : Char) :
    Int → List Int → Int → List Char → List Int
  | pdiag, pup :: prest, left, c2 :: rest =>
    let similarity := if c1 = c2 then p.MATCH_SCORE else p.MISMATCH_SCORE
    let v := cellMax (pdiag + similarity) (pup + p.GAP_SCORE) (left + p.GAP_SCORE)
    v :: fillRowAux p c1 pup prest v rest
  | _, _, _, _ => []

/-- One full matrix row for seq1 character c1: column 0 keeps its zero
initialization, the interior cells follow the calc_score recurrence. -/
def fillRow (p : ScoreParams) (c1 : Char) (prev : List Int) (s2 : List Char) : List Int :=
  0 :: fillRowAux p c1 (prev.headD 0) prev.tail 0 s2

/-- Rows 1..rows-1 of the score matrix, in fill order. -/
def matrixRows (p : ScoreParams) (s2 : List Char) : List Char → List Int → List (List Int)
  | [], _ => []
  | c1 :: cs, prev =>
    let r := fillRow p c1 prev s2
    r :: matrixRows p s2 cs r

/-- The filled (len(seq1)+1) x (len(seq2)+1) score matrix of
smith_waterman (lines 77-78 allocate it zero-initialized; the
create_score_matrix loop fills every interior cell via calc_score). -/
def scoreMatrix (p : ScoreParams) (s1 s2 : List Char) : List (List Int) :=
  List.replicate (s2.length + 1) 0 :: matrixRows p s2 s1 (List.replicate (s2.length + 1) 0)

/-- score_matrix->at(i).at(j) after the fill (0 outside the matrix;
the scan below only reads interior indices). -/
def matCell (p : ScoreParams) (s1 s2 : List Char) (i j : Nat) : Int :=
  ((scoreMatrix p s1 s2).getD i []).getD j 0

/-- The indices s, s+1, ..., s+t-1. -/
def idxFrom : Nat → Nat → List Nat
  | _, 0 => []
  | s, t + 1 => s :: idxFrom (s + 1) t

/-- The interior index pairs (i, j), 1 <= i < rows, 1 <= j < cols, in
the row-major order of the create_score_matrix double loop. -/
def scanCells (rows cols : Nat) : List (Nat × Nat) :=
  ((idxFrom 1 (rows - 1)).map fun i => (idxFrom 1 (cols - 1)).map fun j => (i, j)).flatten

/-- Fold tracking a running maximum: a candidate replaces the incumbent
only when its value f x is strictly greater (first-seen maximum kept). -/
def maxFold {ι α : Type} (f : ι → Int) (g : ι → α) (l : List ι) (b : Int × α) : Int × α :=
  l.foldl (fun acc x => if f x > acc.1 then (f x, g x) else acc) b

/-- The inner loop of the create_score_matrix scan: visit the interior
cells of row i (columns j, j+1, ...) left to right, keeping the
strictly greatest value seen with its row and column. -/
def scanRowCells : List Int → Nat → Nat → Int × Int × Int → Int × Int × Int
  | [], _, _, acc => acc
  | v :: rest, i, j, (ms, mr, mc) =>
    if v > ms then scanRowCells rest i (j + 1) (v, (i : Int), (j : Int))
    else scanRowCells rest i (j + 1) (ms, mr, mc)

/-- The outer loop of the create_score_matrix scan: rows 1, 2, ...,
each row's interior cells starting at column 1. -/
def scanRows : List (List Int) → Nat → Int × Int × Int → Int × Int × Int
  | [], _, acc => acc
  | r :: rest, i, acc => scanRows rest (i + 1) (scanRowCells r.tail i 1 acc)

/-- create_score_matrix (lines 95-123): fill the matrix (scoreMatrix),
walk every interior cell in row-major order tracking the
strictly-greatest cell value and its row/column (max_score starts at 0,
the positions at -1); if no cell exceeded zero report
(start_pos, score) = (-1, 0), else (max_pos_row, max_score). -/
def create_score_matrix (p : ScoreParams) (seq1 seq2 : List Char) : Int × Int :=
  let r := scanRows (scoreMatrix p seq1 seq2).tail 1 (0, -1, -1)
  if r.2.1 = -1 ∨ r.2.2 = -1 then ((-1 : Int), 0) else (r.2.1, r.1)

/-- smith_waterman (lines 66-86): returns (pos, score) with
pos = start_pos - len(seq2). -/
def smith_waterman (p : ScoreParams) (seq1 seq2 : List Char) : Int × Int :=
  let r := create_score_matrix p seq1 seq2
  (r.1 - (seq2.length : Int), r.2)

/-- The hypothesis string var_realign_string of trial copy count k
(lines 41-47): pre_flank + motif repeated k times + post_flank. -/
def var_realign_string (pre_flank post_flank motif : List Char) (k : Nat) : List Char :=
  pre_flank ++ (List.replicate k motif).flatten ++ post_flank

/-- One trial of the realigner loop body: align the trial hypothesis
against the read, giving (current_pos, current_score). -/
def trialOut (p : ScoreParams) (seq pre_flank post_flank motif : List Char) (k : Nat) :
    Int × Int :=
  smith_waterman p (var_realign_string pre_flank post_flank motif k) seq

def trialPos (p : ScoreParams) (seq pre_flank post_flank motif : List Char) (k : Nat) : Int :=
  (trialOut p seq pre_flank post_flank motif k).1

def trialScore (p : ScoreParams) (seq pre_flank post_flank motif : List Char) (k : Nat) : Int :=
  (trialOut p seq pre_flank post_flank motif k).2

/-- The perfect score read_len * MATCH_SCORE of the early exit
(line 56). -/
def perfectScore (p : ScoreParams) (seq : List Char) : Int :=
  (seq.length : Int) * p.MATCH_SCORE

/-- The realigner loop (lines 40-59), fuel counting the remaining
iterations (the loop runs for current_nCopy = k while k < bound, so
fuel = bound - k).  The accumulator is (max_score, max_nCopy, max_pos),
initialized (0, 0, 0); a trial replaces it only on a strictly greater
current_score, and the loop breaks once current_score equals
read_len * MATCH_SCORE. -/
def realignFrom (p : ScoreParams) (seq pre_flank post_flank motif : List Char) :
    Nat → Nat → Int × Int × Int → Int × Int × Int
  | 0, _, best => best
  | fuel + 1, k, best =>
    match trialOut p seq pre_flank post_flank motif k, best with
    | (current_pos, current_score), (ms, mn, mp) =>
      match (if current_score > ms then (current_score, (k : Int), current_pos)
             else (ms, mn, mp)) with
      | best' =>
        if current_score = perfectScore p seq then best'
        else realignFrom p seq pre_flank post_flank motif fuel (k + 1) best'

/-- C++ integer division: division by zero is undefined behavior
(line 40 divides read_len by period), modelled as none. -/
def cppDivNat (a b : Nat) : Option Nat :=
  if b = 0 then none else some (a / b)

/-- expansion_aware_realign (lines 26-64): try copy counts k with
k < read_len / period + 2 and return (nCopy, pos, score) of the best
trial.  The division read_len / period is undefined for an empty
motif. -/
def expansion_aware_realign (p : ScoreParams) (seq pre_flank post_flank motif : List Char) :
    Option (Int × Int × Int) :=
  match cppDivNat seq.length motif.length with
  | none => none
  | some q =>
    let best := realignFrom p seq pre_flank post_flank motif (q + 2) 0 (0, 0, 0)
    some (best.2.1, best.2.2, best.1)

/-- The trial copy counts the loop actually runs, from k with the given
fuel: it stops after the bound, or right after a trial that reaches the
perfect score. -/
def triedFrom (p : ScoreParams) (seq pre_flank post_flank motif : List Char) :
    Nat → Nat → List Nat
  | 0, _ => []
  | fuel + 1, k =>
    if trialScore p seq pre_flank post_flank motif k = perfectScore p seq then [k]
    else k :: triedFrom p seq pre_flank post_flank motif fuel (k + 1)

/-- classify_realigned_read (lines 151-195).  margin is the value of
the global MARGIN (currentMARGIN motif after a realigner call).  The
booleans start_in_str and end_in_str of lines 165-172 are written out
inline (start_in_str holds when start_pos lies in
[start_str - MARGIN, end_str + MARGIN], end_in_str likewise for
end_pos).  The classification-failure branch (line 193, return false)
is none. -/
def classify_realigned_read (p : ScoreParams) (seq motif : List Char)
    (start_pos nCopy score prefix_length margin : Int) : Option SingleReadType :=
  let end_pos := start_pos + (seq.length : Int) - 1
  let start_str := prefix_length
  let end_str := prefix_length + nCopy * (motif.length : Int)
  if score < scoreThreshold p seq.length ∨ nCopy = 0 then some .SR_UNKNOWN
  else if (start_str - margin ≤ start_pos ∧ start_pos ≤ end_str + margin) ∧
      (start_str - margin ≤ end_pos ∧ end_pos ≤ end_str + margin) then some .SR_IRR
  else if (start_str - margin ≤ start_pos ∧ start_pos ≤ end_str + margin) ∧
      ¬(start_str - margin ≤ end_pos ∧ end_pos ≤ end_str + margin) then some .SR_POSTFLANK
  else if ¬(start_str - margin ≤ start_pos ∧ start_pos ≤ end_str + margin) ∧
      (start_str - margin ≤ end_pos ∧ end_pos ≤ end_str + margin) then some .SR_PREFLANK
  else if start_pos < start_str ∧ end_pos > end_str then some .SR_ENCLOSING
  else none

/-- vector/string element access .at(idx) with an int32_t index: a
negative index converts to a huge size_t, so any index outside
[0, size) throws (modelled as none). -/
def vectorAt {α : Type} (l : List α) (idx : Int) : Option α :=
  if idx < 0 then none else l[idx.toNat]?

/-- Bounds-checked element replacement, for the write
score_matrix->at(i).at(j) = max_score. -/
def listSetAt {α : Type} (l : List α) (idx : Int) (a : α) : Option (List α) :=
  if idx < 0 then none
  else if idx.toNat < l.length then some (l.set idx.toNat a) else none

/-- calc_score (lines 129-149), with the source's access order: the two
sequence characters, the diagonal, up and left neighbors, then the
write of the cell.  Any .at out of range throws, modelled as none. -/
def calc_score (p : ScoreParams) (i j : Int) (seq1 seq2 : List Char)
    (score_matrix : List (List Int)) : Option (List (List Int)) := do
  let c1 ← vectorAt seq1 (i - 1)
  let c2 ← vectorAt seq2 (j - 1)
  let similarity := if c1 = c2 then p.MATCH_SCORE else p.MISMATCH_SCORE
  let row_im1 ← vectorAt score_matrix (i - 1)
  let diag_base ← vectorAt row_im1 (j - 1)
  let up_base ← vectorAt row_im1 j
  let row_i ← vectorAt score_matrix i
  let left_base ← vectorAt row_i (j - 1)
  let max_score := cellMax (diag_base + similarity) (up_base + p.GAP_SCORE)
      (left_base + p.GAP_SCORE)
  let row_i' ← listSetAt row_i j max_score
  listSetAt score_matrix i row_i'

/-- The calc_score recurrence as a recursion on matrix indices; used
for reasoning about the filled matrix (matCell computes these values
in fill order). -/
def cellScore (p : ScoreParams) (s1 s2 : List Char) : Nat → Nat → Int
  | 0, _ => 0
  | _ + 1, 0 => 0
  | i + 1, j + 1 =>
    let similarity := if s1.getD i 'A' = s2.getD j 'A' then p.MATCH_SCORE
      else p.MISMATCH_SCORE
    cellMax (cellScore p s1 s2 i j + similarity)
      (cellScore p s1 s2 i (j + 1) + p.GAP_SCORE)
      (cellScore p s1 s2 (i + 1) j + p.GAP_SCORE)
termination_by i j => (i, j)

/-- seq2 occurs in seq1 base-for-base, over seq2's full length, at
offset t. -/
def matchesAt (s1 s2 : List Char) (t : Nat) : Prop :=
  t + s2.length ≤ s1.length ∧ ∀ jj < s2.length, s1.getD (t + jj) 'A' = s2.getD jj 'A'

instance (s1 s2 : List Char) (t : Nat) : Decidable (matchesAt s1 s2 t) := by
  unfold matchesAt
  infer_instance

/-! Basic facts about the cell maximum. -/

theorem cellMax_nonneg (d u l : Int) : 0 ≤ cellMax d u l := by
  simp only [cellMax]
  split_ifs <;> omega

theorem le_cellMax_diag (d u l : Int) : d ≤ cellMax d u l := by
  simp only [cellMax]
  split_ifs <;> omega

theorem cellMax_le {d u l b : Int} (h0 : 0 ≤ b) (hd : d ≤ b) (hu : u ≤ b)
    (hl : l ≤ b) : cellMax d u l ≤ b := by
  simp only [cellMax]
  split_ifs <;> omega

theorem cellMax_cases (d u l : Int) :
    cellMax d u l = 0 ∨ cellMax d u l = d ∨ cellMax d u l = u ∨ cellMax d u l = l := by
  simp only [cellMax]
  split_ifs <;> omega

/-! Basic facts about the recurrence view of the matrix cells. -/

theorem cellScore_zero_left (p : ScoreParams) (s1 s2 : List Char) (j : Nat) :
    cellScore p s1 s2 0 j = 0 := by
  simp [cellScore]

theorem cellScore_zero_right (p : ScoreParams) (s1 s2 : List Char) (i : Nat) :
    cellScore p s1 s2 i 0 = 0 := by
  cases i <;> simp [cellScore]

theorem cellScore_succ (p : ScoreParams) (s1 s2 : List Char) (i j : Nat) :
    cellScore p s1 s2 (i + 1) (j + 1) =
      cellMax (cellScore p s1 s2 i j +
          (if s1.getD i 'A' = s2.getD j 'A' then p.MATCH_SCORE else p.MISMATCH_SCORE))
        (cellScore p s1 s2 i (j + 1) + p.GAP_SCORE)
        (cellScore p s1 s2 (i + 1) j + p.GAP_SCORE) := by
  simp [cellScore]

theorem cellScore_nonneg (p : ScoreParams) (s1 s2 : List Char) (i j : Nat) :
    0 ≤ cellScore p s1 s2 i j := by
  match i, j with
  | 0, j => rw [cellScore_zero_left]
  | i + 1, 0 => rw [cellScore_zero_right]
  | i + 1, j + 1 => rw [cellScore_succ]; exact cellMax_nonneg _ _ _

/-! Index-list helpers. -/

theorem idxFrom_length : ∀ (t s : Nat), (idxFrom s t).length = t
  | 0, _ => rfl
  | t + 1, s => by simp [idxFrom, idxFrom_length t]

theorem mem_idxFrom : ∀ {t s j : Nat}, j ∈ idxFrom s t ↔ s ≤ j ∧ j < s + t
  | 0, s, j => by
    simp only [idxFrom, List.not_mem_nil, false_iff]
    omega
  | t + 1, s, j => by
    simp only [idxFrom, List.mem_cons, @mem_idxFrom t (s + 1) j]
    omega

theorem idxFrom_map_getD {α : Type} (f : Nat → α) (d : α) :
    ∀ (t s k : Nat), ((idxFrom s t).map f).getD k d = if k < t then f (s + k) else d
  | 0, s, k => by simp [idxFrom]
  | t + 1, s, 0 => by simp [idxFrom]
  | t + 1, s, k + 1 => by
    simp only [idxFrom, List.map_cons, List.getD_cons_succ,
      idxFrom_map_getD f d t (s + 1) k]
    have hs : s + 1 + k = s + (k + 1) := by omega
    rw [hs]
    by_cases h : k < t
    · rw [if_pos h, if_pos (by omega)]
    · rw [if_neg h, if_neg (by omega)]

/-! The filled matrix realizes the cellScore recurrence. -/

theorem drop_cons_facts {α : Type} :
    ∀ (l : List α) (n : Nat) (c : α) (rest : List α) (d : α),
      l.drop n = c :: rest → l.getD n d = c ∧ l.drop (n + 1) = rest ∧ n < l.length
  | [], n, c, rest, d => by simp
  | x :: xs, 0, c, rest, d => by
    intro h
    simp only [List.drop_zero] at h
    cases h
    simp
  | x :: xs, n + 1, c, rest, d => by
    intro h
    simp only [List.drop_succ_cons] at h
    obtain ⟨h1, h2, h3⟩ := drop_cons_facts xs n c rest d h
    refine ⟨h1, ?_, by simpa using Nat.succ_lt_succ h3⟩
    simpa using h2

theorem drop_eq_nil_le {α : Type} {l : List α} {n : Nat} (h : l.drop n = []) :
    l.length ≤ n := by
  have := congrArg List.length h
  simp only [List.length_drop, List.length_nil] at this
  omega

theorem fillRowAux_spec (p : ScoreParams) (s1 s2 : List Char) (i : Nat) :
    ∀ (cs : List Char) (j0 : Nat), s2.drop j0 = cs →
      fillRowAux p (s1.getD i 'A') (cellScore p s1 s2 i j0)
          ((idxFrom (j0 + 1) (s2.length - j0)).map (cellScore p s1 s2 i))
          (cellScore p s1 s2 (i + 1) j0) cs
        = (idxFrom (j0 + 1) (s2.length - j0)).map (cellScore p s1 s2 (i + 1))
  | [], j0 => by
    intro h
    have hle := drop_eq_nil_le h
    have h0 : s2.length - j0 = 0 := by omega
    simp [h0, idxFrom, fillRowAux]
  | c :: cs', j0 => by
    intro h
    obtain ⟨hgd, hdrop, hlt⟩ := drop_cons_facts s2 j0 c cs' 'A' h
    obtain ⟨t, ht⟩ : ∃ t, s2.length - j0 = t + 1 := ⟨s2.length - (j0 + 1), by omega⟩
    have ht' : s2.length - (j0 + 1) = t := by omega
    rw [ht]
    simp only [idxFrom, List.map_cons, fillRowAux]
    have hv : cellMax (cellScore p s1 s2 i j0 +
          (if s1.getD i 'A' = c then p.MATCH_SCORE else p.MISMATCH_SCORE))
        (cellScore p s1 s2 i (j0 + 1) + p.GAP_SCORE)
        (cellScore p s1 s2 (i + 1) j0 + p.GAP_SCORE)
        = cellScore p s1 s2 (i + 1) (j0 + 1) := by
      rw [cellScore_succ, hgd]
    rw [hv]
    have := fillRowAux_spec p s1 s2 i cs' (j0 + 1) hdrop
    rw [ht'] at this
    rw [this]

theorem fillRow_spec (p : ScoreParams) (s1 s2 : List Char) (i : Nat) :
    fillRow p (s1.getD i 'A') ((idxFrom 0 (s2.length + 1)).map (cellScore p s1 s2 i)) s2
      = (idxFrom 0 (s2.length + 1)).map (cellScore p s1 s2 (i + 1)) := by
  have key := fillRowAux_spec p s1 s2 i s2 0 (by simp)
  simp only [Nat.sub_zero, cellScore_zero_right] at key
  simp only [fillRow, idxFrom, List.map_cons, List.headD_cons, List.tail_cons,
    cellScore_zero_right]
  rw [key]

theorem matrixRows_spec (p : ScoreParams) (s1 s2 : List Char) :
    ∀ (cs : List Char) (i : Nat), s1.drop i = cs →
      matrixRows p s2 cs ((idxFrom 0 (s2.length + 1)).map (cellScore p s1 s2 i))
        = (idxFrom (i + 1) (s1.length - i)).map
            (fun ii => (idxFrom 0 (s2.length + 1)).map (cellScore p s1 s2 ii))
  | [], i => by
    intro h
    have hle := drop_eq_nil_le h
    have h0 : s1.length - i = 0 := by omega
    simp [h0, idxFrom, matrixRows]
  | c1 :: cs', i => by
    intro h
    obtain ⟨hgd, hdrop, hlt⟩ := drop_cons_facts s1 i c1 cs' 'A' h
    obtain ⟨t, ht⟩ : ∃ t, s1.length - i = t + 1 := ⟨s1.length - (i + 1), by omega⟩
    have ht' : s1.length - (i + 1) = t := by omega
    rw [ht]
    simp only [matrixRows]
    rw [← hgd, fillRow_spec p s1 s2 i]
    have key := matrixRows_spec p s1 s2 cs' (i + 1) hdrop
    rw [ht'] at key
    rw [key]
    simp only [idxFrom, List.map_cons]

theorem idxFrom_map_cellScore_zero (p : ScoreParams) (s1 s2 : List Char) :
    ∀ (t s : Nat), (idxFrom s t).map (cellScore p s1 s2 0) = List.replicate t 0
  | 0, s => rfl
  | t + 1, s => by
    simp only [idxFrom, List.map_cons, cellScore_zero_left, List.replicate,
      idxFrom_map_cellScore_zero p s1 s2 t (s + 1)]

theorem scoreMatrix_eq (p : ScoreParams) (s1 s2 : List Char) :
    scoreMatrix p s1 s2 = (idxFrom 0 (s1.length + 1)).map
      (fun ii => (idxFrom 0 (s2.length + 1)).map (cellScore p s1 s2 ii)) := by
  have hrep : List.replicate (s2.length + 1) (0 : Int)
      = (idxFrom 0 (s2.length + 1)).map (cellScore p s1 s2 0) :=
    (idxFrom_map_cellScore_zero p s1 s2 (s2.length + 1) 0).symm
  simp only [scoreMatrix, hrep]
  rw [matrixRows_spec p s1 s2 s1 0 (by simp)]
  simp only [idxFrom, List.map_cons, Nat.sub_zero]

theorem matCell_eq (p : ScoreParams) (s1 s2 : List Char) {i j : Nat}
    (hi : i ≤ s1.length) (hj : j ≤ s2.length) :
    matCell p s1 s2 i j = cellScore p s1 s2 i j := by
  rw [matCell, scoreMatrix_eq, idxFrom_map_getD, if_pos (by omega), Nat.zero_add,
    idxFrom_map_getD, if_pos (by omega), Nat.zero_add]

theorem matCell_oob_row (p : ScoreParams) (s1 s2 : List Char) {i : Nat} (j : Nat)
    (hi : s1.length < i) : matCell p s1 s2 i j = 0 := by
  rw [matCell, scoreMatrix_eq, idxFrom_map_getD, if_neg (by omega)]
  simp

theorem matCell_oob_col (p : ScoreParams) (s1 s2 : List Char) (i : Nat) {j : Nat}
    (hj : s2.length < j) : matCell p s1 s2 i j = 0 := by
  rw [matCell, scoreMatrix_eq, idxFrom_map_getD]
  by_cases hi : i < s1.length + 1
  · rw [if_pos hi, Nat.zero_add, idxFrom_map_getD, if_neg (by omega)]
  · rw [if_neg hi]
    simp

/-! The strict-maximum fold and its characterization. -/

theorem maxFold_nil {ι α : Type} (f : ι → Int) (g : ι → α) (b : Int × α) :
    maxFold f g [] b = b := rfl

theorem maxFold_cons {ι α : Type} (f : ι → Int) (g : ι → α) (x : ι) (l : List ι)
    (b : Int × α) :
    maxFold f g (x :: l) b = maxFold f g l (if f x > b.1 then (f x, g x) else b) := rfl

theorem maxFold_append {ι α : Type} (f : ι → Int) (g : ι → α) (l1 l2 : List ι)
    (b : Int × α) :
    maxFold f g (l1 ++ l2) b = maxFold f g l2 (maxFold f g l1 b) := by
  simp [maxFold, List.foldl_append]

theorem maxFold_map {ι κ α : Type} (f : κ → Int) (g : κ → α) (h : ι → κ) (l : List ι)
    (b : Int × α) :
    maxFold f g (l.map h) b = maxFold (fun x => f (h x)) (fun x => g (h x)) l b := by
  simp [maxFold, List.foldl_map]

theorem maxFold_congr {ι α : Type} {f f' : ι → Int} {g g' : ι → α} :
    ∀ (l : List ι) (b : Int × α), (∀ x ∈ l, f x = f' x) → (∀ x ∈ l, g x = g' x) →
      maxFold f g l b = maxFold f' g' l b
  | [], b, _, _ => rfl
  | x :: l, b, hf, hg => by
    rw [maxFold_cons, maxFold_cons, hf x (by simp), hg x (by simp)]
    exact maxFold_congr l _ (fun y hy => hf y (by simp [hy])) (fun y hy => hg y (by simp [hy]))

theorem maxFold_char {ι α : Type} (f : ι → Int) (g : ι → α) :
    ∀ (l : List ι) (b : Int × α),
      (maxFold f g l b = b ∧ ∀ x ∈ l, f x ≤ b.1) ∨
      (∃ l1 x l2, l = l1 ++ x :: l2 ∧ maxFold f g l b = (f x, g x) ∧ b.1 < f x ∧
        (∀ y ∈ l, f y ≤ f x) ∧ (∀ y ∈ l1, f y < f x))
  | [], b => Or.inl ⟨rfl, by simp⟩
  | h :: t, b => by
    rw [maxFold_cons]
    by_cases hc : f h > b.1
    · rw [if_pos hc]
      rcases maxFold_char f g t (f h, g h) with ⟨he, hall⟩ | ⟨l1, x, l2, hd, he, hlt, hmax, hfirst⟩
      · refine Or.inr ⟨[], h, t, by simp, by rw [he], hc, ?_, by simp⟩
        intro y hy
        rcases List.mem_cons.mp hy with rfl | hy
        · exact le_refl _
        · exact hall y hy
      · refine Or.inr ⟨h :: l1, x, l2, by simp [hd], he, lt_trans hc hlt, ?_, ?_⟩
        · intro y hy
          rcases List.mem_cons.mp hy with rfl | hy
          · exact le_of_lt (lt_of_le_of_lt (le_refl _) hlt)
          · exact hmax y hy
        · intro y hy
          rcases List.mem_cons.mp hy with rfl | hy
          · exact hlt
          · exact hfirst y hy
    · rw [if_neg hc]
      push_neg at hc
      rcases maxFold_char f g t b with ⟨he, hall⟩ | ⟨l1, x, l2, hd, he, hlt, hmax, hfirst⟩
      · refine Or.inl ⟨he, ?_⟩
        intro y hy
        rcases List.mem_cons.mp hy with rfl | hy
        · exact hc
        · exact hall y hy
      · refine Or.inr ⟨h :: l1, x, l2, by simp [hd], he, hlt, ?_, ?_⟩
        · intro y hy
          rcases List.mem_cons.mp hy with rfl | hy
          · exact le_of_lt (lt_of_le_of_lt hc hlt)
          · exact hmax y hy
        · intro y hy
          rcases List.mem_cons.mp hy with rfl | hy
          · exact lt_of_le_of_lt hc hlt
          · exact hfirst y hy

theorem getD_tail_int (r : List Int) {jj : Nat} (h : 1 ≤ jj) :
    r.tail.getD (jj - 1) 0 = r.getD jj 0 := by
  obtain ⟨k, rfl⟩ : ∃ k, jj = k + 1 := ⟨jj - 1, by omega⟩
  cases r with
  | nil => simp
  | cons v rs => simp [List.getD_cons_succ]

theorem scanRowCells_eq_maxFold :
    ∀ (lst : List Int) (i j0 : Nat) (acc : Int × Int × Int),
      scanRowCells lst i j0 acc
        = maxFold (fun jj => lst.getD (jj - j0) 0)
            (fun jj => ((i : Int), (jj : Int))) (idxFrom j0 lst.length) acc
  | [], i, j0, acc => rfl
  | v :: rest, i, j0, acc => by
    obtain ⟨ms, mr, mc⟩ := acc
    simp only [scanRowCells, List.length_cons, idxFrom, maxFold_cons]
    have hf0 : (v :: rest).getD (j0 - j0) 0 = v := by
      simp [Nat.sub_self]
    rw [hf0]
    have hcongr : ∀ (acc' : Int × Int × Int),
        maxFold (fun jj => (v :: rest).getD (jj - j0) 0)
          (fun jj => ((i : Int), (jj : Int))) (idxFrom (j0 + 1) rest.length) acc'
        = maxFold (fun jj => rest.getD (jj - (j0 + 1)) 0)
          (fun jj => ((i : Int), (jj : Int))) (idxFrom (j0 + 1) rest.length) acc' := by
      intro acc'
      refine maxFold_congr _ _ (fun jj hjj => ?_) (fun _ _ => rfl)
      have hge : j0 + 1 ≤ jj := (mem_idxFrom.mp hjj).1
      have hs : jj - j0 = (jj - (j0 + 1)) + 1 := by omega
      rw [hs, List.getD_cons_succ]
    by_cases hv : v > ms
    · simp only [if_pos hv]
      rw [scanRowCells_eq_maxFold rest i (j0 + 1) _, hcongr]
    · simp only [if_neg hv]
      rw [scanRowCells_eq_maxFold rest i (j0 + 1) _, hcongr]

theorem scanRows_spec (F : Nat → List Int) (n : Nat) (hF : ∀ i, (F i).length = n + 1) :
    ∀ (t i0 : Nat) (acc : Int × Int × Int),
      scanRows ((idxFrom i0 t).map F) i0 acc
        = maxFold (fun ij => (F ij.1).getD ij.2 0)
            (fun ij => ((ij.1 : Int), (ij.2 : Int)))
            (((idxFrom i0 t).map fun i => (idxFrom 1 n).map fun j => (i, j)).flatten) acc
  | 0, i0, acc => rfl
  | t + 1, i0, acc => by
    simp only [idxFrom, List.map_cons, scanRows, List.flatten_cons, maxFold_append]
    have hlen : (F i0).tail.length = n := by
      have := hF i0
      simp [List.length_tail, this]
    have hrow : scanRowCells (F i0).tail i0 1 acc
        = maxFold (fun ij => (F ij.1).getD ij.2 0)
            (fun ij => ((ij.1 : Int), (ij.2 : Int)))
            ((idxFrom 1 n).map fun j => (i0, j)) acc := by
      rw [scanRowCells_eq_maxFold, hlen, maxFold_map]
      refine maxFold_congr _ _ (fun jj hjj => ?_) (fun _ _ => rfl)
      exact getD_tail_int (F i0) (mem_idxFrom.mp hjj).1
    rw [← hrow]
    exact scanRows_spec F n hF t (i0 + 1) _

theorem mem_scanCells {m n : Nat} {ij : Nat × Nat} :
    ij ∈ scanCells (m + 1) (n + 1) ↔ 1 ≤ ij.1 ∧ ij.1 ≤ m ∧ 1 ≤ ij.2 ∧ ij.2 ≤ n := by
  obtain ⟨i, j⟩ := ij
  simp only [scanCells, Nat.add_sub_cancel, List.mem_flatten, List.mem_map]
  constructor
  · rintro ⟨l, ⟨i', hi', rfl⟩, hin⟩
    obtain ⟨j', hj', hpair⟩ := List.mem_map.mp hin
    obtain ⟨rfl, rfl⟩ : i' = i ∧ j' = j := by
      cases hpair
      exact ⟨rfl, rfl⟩
    have h1 := mem_idxFrom.mp hi'
    have h2 := mem_idxFrom.mp hj'
    omega
  · rintro ⟨h1, h2, h3, h4⟩
    refine ⟨(idxFrom 1 n).map fun j => (i, j), ⟨i, mem_idxFrom.mpr (by omega), rfl⟩, ?_⟩
    exact List.mem_map.mpr ⟨j, mem_idxFrom.mpr (by omega), rfl⟩

theorem create_eq_maxFold (p : ScoreParams) (s1 s2 : List Char) :
    create_score_matrix p s1 s2 =
      (fun r => if r.2.1 = -1 ∨ r.2.2 = -1 then ((-1 : Int), (0 : Int)) else (r.2.1, r.1))
        (maxFold (fun ij => matCell p s1 s2 ij.1 ij.2)
          (fun ij => ((ij.1 : Int), (ij.2 : Int)))
          (scanCells (s1.length + 1) (s2.length + 1)) (0, -1, -1)) := by
  have hscan : scanRows (scoreMatrix p s1 s2).tail 1 (0, -1, -1)
      = maxFold (fun ij => matCell p s1 s2 ij.1 ij.2)
          (fun ij => ((ij.1 : Int), (ij.2 : Int)))
          (scanCells (s1.length + 1) (s2.length + 1)) (0, -1, -1) := by
    have htail : (scoreMatrix p s1 s2).tail
        = (idxFrom 1 s1.length).map
            (fun ii => (idxFrom 0 (s2.length + 1)).map (cellScore p s1 s2 ii)) := by
      rw [scoreMatrix_eq]
      simp [idxFrom]
    rw [htail,
      scanRows_spec (fun ii => (idxFrom 0 (s2.length + 1)).map (cellScore p s1 s2 ii))
        s2.length (fun i => by simp [idxFrom_length]) s1.length 1 (0, -1, -1)]
    have hcells : (((idxFrom 1 s1.length).map
          fun i => (idxFrom 1 s2.length).map fun j => (i, j)).flatten)
        = scanCells (s1.length + 1) (s2.length + 1) := by
      simp [scanCells]
    rw [hcells]
    refine maxFold_congr _ _ (fun ij hij => ?_) (fun _ _ => rfl)
    obtain ⟨h1, h2, h3, h4⟩ := mem_scanCells.mp hij
    rw [idxFrom_map_getD, if_pos (by omega), Nat.zero_add,
      matCell_eq p s1 s2 h2 h4]
  simp only [create_score_matrix]
  rw [hscan]

/-! Characterization of the builder result. -/

theorem create_cases (p : ScoreParams) (s1 s2 : List Char) :
    (create_score_matrix p s1 s2 = (-1, 0) ∧
      ∀ ij ∈ scanCells (s1.length + 1) (s2.length + 1), matCell p s1 s2 ij.1 ij.2 ≤ 0) ∨
    (∃ ij ∈ scanCells (s1.length + 1) (s2.length + 1),
      create_score_matrix p s1 s2 = ((ij.1 : Int), matCell p s1 s2 ij.1 ij.2) ∧
      0 < matCell p s1 s2 ij.1 ij.2 ∧
      ∀ y ∈ scanCells (s1.length + 1) (s2.length + 1),
        matCell p s1 s2 y.1 y.2 ≤ matCell p s1 s2 ij.1 ij.2) := by
  rw [create_eq_maxFold]
  rcases maxFold_char (fun ij => matCell p s1 s2 ij.1 ij.2)
      (fun ij => ((ij.1 : Int), (ij.2 : Int)))
      (scanCells (s1.length + 1) (s2.length + 1)) (0, -1, -1) with
    ⟨he, hall⟩ | ⟨l1, x, l2, hd, he, hlt, hmax, _⟩
  · left
    rw [he]
    exact ⟨by norm_num, hall⟩
  · right
    have hx : x ∈ scanCells (s1.length + 1) (s2.length + 1) := by
      rw [hd]
      exact List.mem_append.mpr (Or.inr (by simp))
    obtain ⟨hx1, hx2, hx3, hx4⟩ := mem_scanCells.mp hx
    refine ⟨x, hx, ?_, hlt, hmax⟩
    rw [he]
    have h1 : ¬((x.1 : Int) = -1 ∨ (x.2 : Int) = -1) := by
      push_neg
      constructor <;> omega
    simp only [h1, if_false, if_neg h1]

/-! Score bounds for the local aligner. -/

theorem cellScore_le_col (p : ScoreParams) (hM : 0 < p.MATCH_SCORE)
    (hMis : p.MISMATCH_SCORE < 0) (hG : p.GAP_SCORE < 0) (s1 s2 : List Char) :
    ∀ (i j : Nat), cellScore p s1 s2 i j ≤ (j : Int) * p.MATCH_SCORE
  | 0, j => by
    rw [cellScore_zero_left]
    exact mul_nonneg (by positivity) hM.le
  | i + 1, 0 => by
    rw [cellScore_zero_right]
    simp
  | i + 1, j + 1 => by
    rw [cellScore_succ]
    have ih1 := cellScore_le_col p hM hMis hG s1 s2 i j
    have ih2 := cellScore_le_col p hM hMis hG s1 s2 i (j + 1)
    have ih3 := cellScore_le_col p hM hMis hG s1 s2 (i + 1) j
    have hcast : ((j + 1 : Nat) : Int) * p.MATCH_SCORE
        = (j : Int) * p.MATCH_SCORE + p.MATCH_SCORE := by
      push_cast
      ring
    have hsim : (if s1.getD i 'A' = s2.getD j 'A' then p.MATCH_SCORE
        else p.MISMATCH_SCORE) ≤ p.MATCH_SCORE := by
      split_ifs <;> linarith
    refine cellMax_le ?_ ?_ ?_ ?_
    · exact mul_nonneg (by positivity) hM.le
    · linarith
    · linarith
    · linarith
termination_by i j => (i, j)

theorem cellScore_ge_match (p : ScoreParams) (s1 s2 : List Char) (t : Nat)
    (hmatch : ∀ jj < s2.length, s1.getD (t + jj) 'A' = s2.getD jj 'A') :
    ∀ j, j ≤ s2.length → (j : Int) * p.MATCH_SCORE ≤ cellScore p s1 s2 (t + j) j := by
  intro j
  induction j with
  | zero =>
    intro _
    rw [cellScore_zero_right]
    simp
  | succ j ih =>
    intro hle
    have hj : j ≤ s2.length := by omega
    have hi : t + (j + 1) = (t + j) + 1 := by omega
    rw [hi, cellScore_succ]
    have hch : s1.getD (t + j) 'A' = s2.getD j 'A' := hmatch j (by omega)
    rw [if_pos hch]
    have hd := le_cellMax_diag (cellScore p s1 s2 (t + j) j + p.MATCH_SCORE)
      (cellScore p s1 s2 (t + j) (j + 1) + p.GAP_SCORE)
      (cellScore p s1 s2 ((t + j) + 1) j + p.GAP_SCORE)
    have hcast : ((j + 1 : Nat) : Int) * p.MATCH_SCORE
        = (j : Int) * p.MATCH_SCORE + p.MATCH_SCORE := by
      push_cast
      ring
    have := ih hj
    linarith

theorem cellScore_eq_perfect (p : ScoreParams) (hM : 0 < p.MATCH_SCORE)
    (hMis : p.MISMATCH_SCORE < 0) (hG : p.GAP_SCORE < 0) (s1 s2 : List Char) :
    ∀ (j i : Nat), cellScore p s1 s2 i j = (j : Int) * p.MATCH_SCORE →
      j ≤ i ∧ ∀ tt < j, s1.getD (i - j + tt) 'A' = s2.getD tt 'A'
  | 0, i => by
    intro _
    exact ⟨Nat.zero_le _, by omega⟩
  | j + 1, i => by
    intro h
    have hpos : 0 < ((j + 1 : Nat) : Int) * p.MATCH_SCORE := by
      apply mul_pos _ hM
      positivity
    match i with
    | 0 =>
      rw [cellScore_zero_left] at h
      omega
    | i' + 1 =>
      rw [cellScore_succ] at h
      have hub_d : cellScore p s1 s2 i' j ≤ (j : Int) * p.MATCH_SCORE :=
        cellScore_le_col p hM hMis hG s1 s2 i' j
      have hub_u : cellScore p s1 s2 i' (j + 1) ≤ ((j + 1 : Nat) : Int) * p.MATCH_SCORE :=
        cellScore_le_col p hM hMis hG s1 s2 i' (j + 1)
      have hub_l : cellScore p s1 s2 (i' + 1) j ≤ (j : Int) * p.MATCH_SCORE :=
        cellScore_le_col p hM hMis hG s1 s2 (i' + 1) j
      have hcast : ((j + 1 : Nat) : Int) * p.MATCH_SCORE
          = (j : Int) * p.MATCH_SCORE + p.MATCH_SCORE := by
        push_cast
        ring
      by_cases hch : s1.getD i' 'A' = s2.getD j 'A'
      · rw [if_pos hch] at h
        rcases cellMax_cases (cellScore p s1 s2 i' j + p.MATCH_SCORE)
            (cellScore p s1 s2 i' (j + 1) + p.GAP_SCORE)
            (cellScore p s1 s2 (i' + 1) j + p.GAP_SCORE) with h0 | hd | hu | hl
        · rw [h0] at h
          omega
        · rw [hd] at h
          have hdj : cellScore p s1 s2 i' j = (j : Int) * p.MATCH_SCORE := by linarith
          obtain ⟨hji, hwin⟩ := cellScore_eq_perfect p hM hMis hG s1 s2 j i' hdj
          refine ⟨by omega, ?_⟩
          intro tt htt
          by_cases htj : tt < j
          · have hidx : i' + 1 - (j + 1) + tt = i' - j + tt := by omega
            rw [hidx]
            exact hwin tt htj
          · have htt_eq : tt = j := by omega
            subst htt_eq
            have hidx : i' + 1 - (tt + 1) + tt = i' := by omega
            rw [hidx]
            exact hch
        · rw [hu] at h
          linarith
        · rw [hl] at h
          linarith
      · rw [if_neg hch] at h
        rcases cellMax_cases (cellScore p s1 s2 i' j + p.MISMATCH_SCORE)
            (cellScore p s1 s2 i' (j + 1) + p.GAP_SCORE)
            (cellScore p s1 s2 (i' + 1) j + p.GAP_SCORE) with h0 | hd | hu | hl
        · rw [h0] at h
          omega
        · rw [hd] at h
          linarith
        · rw [hu] at h
          linarith
        · rw [hl] at h
          linarith

theorem sw_score_nonneg (p : ScoreParams) (s1 s2 : List Char) :
    0 ≤ (create_score_matrix p s1 s2).2 := by
  rcases create_cases p s1 s2 with ⟨he, _⟩ | ⟨ij, _, he, hpos, _⟩
  · rw [he]
  · rw [he]
    exact hpos.le

theorem sw_score_le (p : ScoreParams) (hM : 0 < p.MATCH_SCORE)
    (hMis : p.MISMATCH_SCORE < 0) (hG : p.GAP_SCORE < 0) (s1 s2 : List Char) :
    (create_score_matrix p s1 s2).2 ≤ (s2.length : Int) * p.MATCH_SCORE := by
  rcases create_cases p s1 s2 with ⟨he, _⟩ | ⟨ij, hmem, he, _, _⟩
  · rw [he]
    exact mul_nonneg (by positivity) hM.le
  · rw [he]
    obtain ⟨h1, h2, h3, h4⟩ := mem_scanCells.mp hmem
    rw [matCell_eq p s1 s2 h2 h4]
    calc cellScore p s1 s2 ij.1 ij.2 ≤ (ij.2 : Int) * p.MATCH_SCORE :=
        cellScore_le_col p hM hMis hG s1 s2 ij.1 ij.2
      _ ≤ (s2.length : Int) * p.MATCH_SCORE := by
        apply mul_le_mul_of_nonneg_right _ hM.le
        exact_mod_cast h4

theorem sw_perfect_iff (p : ScoreParams) (hM : 0 < p.MATCH_SCORE)
    (hMis : p.MISMATCH_SCORE < 0) (hG : p.GAP_SCORE < 0) (s1 s2 : List Char) :
    (create_score_matrix p s1 s2).2 = (s2.length : Int) * p.MATCH_SCORE ↔
      ∃ t, matchesAt s1 s2 t := by
  constructor
  · intro h
    match hn : s2.length with
    | 0 =>
      refine ⟨0, ?_, ?_⟩
      · omega
      · intro jj hjj
        omega
    | n + 1 =>
      rw [hn] at h
      have hpos : (0 : Int) < ((n + 1 : Nat) : Int) * p.MATCH_SCORE := by
        apply mul_pos _ hM
        positivity
      rcases create_cases p s1 s2 with ⟨he, _⟩ | ⟨ij, hmem, he, _, _⟩
      · rw [he] at h
        simp at h
        omega
      · rw [he] at h
        simp only at h
        obtain ⟨h1, h2, h3, h4⟩ := mem_scanCells.mp hmem
        rw [matCell_eq p s1 s2 h2 h4] at h
        have hub : cellScore p s1 s2 ij.1 ij.2 ≤ (ij.2 : Int) * p.MATCH_SCORE :=
          cellScore_le_col p hM hMis hG s1 s2 ij.1 ij.2
        have hjn : ij.2 = n + 1 := by
          have hle2 : ((n + 1 : Nat) : Int) ≤ (ij.2 : Int) := by
            have := h ▸ hub
            exact le_of_mul_le_mul_right this hM
          have : (n + 1 : Nat) ≤ ij.2 := by exact_mod_cast hle2
          omega
        rw [hjn] at h
        obtain ⟨hji, hwin⟩ := cellScore_eq_perfect p hM hMis hG s1 s2 (n + 1) ij.1 h
        refine ⟨ij.1 - (n + 1), ?_, ?_⟩
        · rw [hn]
          omega
        · intro jj hjj
          rw [hn] at hjj
          exact hwin jj hjj
  · rintro ⟨t, htle, hchars⟩
    refine le_antisymm (sw_score_le p hM hMis hG s1 s2) ?_
    match hn : s2.length with
    | 0 =>
      simp only [Nat.cast_zero, zero_mul]
      exact sw_score_nonneg p s1 s2
    | n + 1 =>
      rw [hn] at htle
      have hcell : ((n + 1 : Nat) : Int) * p.MATCH_SCORE ≤ cellScore p s1 s2 (t + (n + 1)) (n + 1) := by
        have := cellScore_ge_match p s1 s2 t hchars (n + 1) (by omega)
        exact this
      have hbound1 : t + (n + 1) ≤ s1.length := htle
      have hmem : (t + (n + 1), n + 1) ∈ scanCells (s1.length + 1) (s2.length + 1) := by
        rw [mem_scanCells]
        refine ⟨by omega, by omega, by omega, by omega⟩
      have hmc : matCell p s1 s2 (t + (n + 1)) (n + 1) = cellScore p s1 s2 (t + (n + 1)) (n + 1) :=
        matCell_eq p s1 s2 hbound1 (by omega)
      rcases create_cases p s1 s2 with ⟨he, hall⟩ | ⟨ij, hmemij, he, _, hmax⟩
      · exfalso
        have := hall _ hmem
        rw [hmc] at this
        have hpos : (0 : Int) < ((n + 1 : Nat) : Int) * p.MATCH_SCORE := by
          apply mul_pos _ hM
          positivity
        linarith
      · rw [he]
        simp only
        have := hmax _ hmem
        rw [hmc] at this
        linarith

/-! The realigner loop as a strict-maximum fold over the tried copy
counts. -/

theorem realignFrom_eq_maxFold (p : ScoreParams) (seq pre post motif : List Char) :
    ∀ (fuel k : Nat) (best : Int × Int × Int),
      realignFrom p seq pre post motif fuel k best
        = maxFold (trialScore p seq pre post motif)
            (fun kk => ((kk : Int), trialPos p seq pre post motif kk))
            (triedFrom p seq pre post motif fuel k) best
  | 0, k, best => rfl
  | fuel + 1, k, best => by
    obtain ⟨ms, mn, mp⟩ := best
    rcases htr : trialOut p seq pre post motif k with ⟨cpos, cscore⟩
    have hsc : trialScore p seq pre post motif k = cscore := by
      rw [trialScore, htr]
    have hps : trialPos p seq pre post motif k = cpos := by
      rw [trialPos, htr]
    simp only [realignFrom, triedFrom, htr, hsc, hps]
    by_cases hperf : cscore = perfectScore p seq
    · rw [if_pos hperf, if_pos hperf, maxFold_cons, maxFold_nil, hsc, hps]
    · rw [if_neg hperf, if_neg hperf, maxFold_cons, hsc, hps]
      exact realignFrom_eq_maxFold p seq pre post motif fuel (k + 1) _

theorem mem_triedFrom_self (p : ScoreParams) (seq pre post motif : List Char)
    (fuel k : Nat) (h : 0 < fuel) : k ∈ triedFrom p seq pre post motif fuel k := by
  match fuel with
  | fuel + 1 =>
    simp only [triedFrom]
    split_ifs <;> simp

theorem mem_triedFrom_ge (p : ScoreParams) (seq pre post motif : List Char) :
    ∀ (fuel k j : Nat), j ∈ triedFrom p seq pre post motif fuel k → k ≤ j
  | 0, k, j => by simp [triedFrom]
  | fuel + 1, k, j => by
    simp only [triedFrom]
    split_ifs
    · intro hj
      simp at hj
      omega
    · intro hj
      rcases List.mem_cons.mp hj with rfl | hj
      · exact le_refl _
      · have := mem_triedFrom_ge p seq pre post motif fuel (k + 1) j hj
        omega

theorem triedFrom_pairwise (p : ScoreParams) (seq pre post motif : List Char) :
    ∀ (fuel k : Nat), (triedFrom p seq pre post motif fuel k).Pairwise (· < ·)
  | 0, k => by simp [triedFrom]
  | fuel + 1, k => by
    simp only [triedFrom]
    split_ifs
    · simp
    · refine List.pairwise_cons.mpr ⟨?_, triedFrom_pairwise p seq pre post motif fuel (k + 1)⟩
      intro j hj
      have := mem_triedFrom_ge p seq pre post motif fuel (k + 1) j hj
      omega

theorem triedFrom_no_earlier_perfect (p : ScoreParams) (seq pre post motif : List Char) :
    ∀ (fuel k j : Nat), j ∈ triedFrom p seq pre post motif fuel k →
      ∀ i', k ≤ i' → i' < j →
        trialScore p seq pre post motif i' ≠ perfectScore p seq
  | 0, k, j => by simp [triedFrom]
  | fuel + 1, k, j => by
    simp only [triedFrom]
    split_ifs with hperf
    · intro hj
      simp at hj
      subst hj
      intro i' h1 h2
      omega
    · intro hj i' h1 h2
      rcases List.mem_cons.mp hj with rfl | hj
      · omega
      · by_cases hik : i' = k
        · subst hik
          exact hperf
        · exact triedFrom_no_earlier_perfect p seq pre post motif fuel (k + 1) j hj i'
            (by omega) h2

theorem triedFrom_all (p : ScoreParams) (seq pre post motif : List Char) :
    ∀ (fuel k : Nat),
      (∀ j, k ≤ j → j < k + fuel → trialScore p seq pre post motif j ≠ perfectScore p seq) →
      triedFrom p seq pre post motif fuel k = idxFrom k fuel
  | 0, k => fun _ => rfl
  | fuel + 1, k => by
    intro h
    simp only [triedFrom, idxFrom]
    rw [if_neg (h k (le_refl _) (by omega))]
    rw [triedFrom_all p seq pre post motif fuel (k + 1) (fun j h1 h2 => h j (by omega) (by omega))]

theorem realign_eq (p : ScoreParams) (seq pre post motif : List Char) (h : motif ≠ []) :
    expansion_aware_realign p seq pre post motif
      = some ((realignFrom p seq pre post motif (seq.length / motif.length + 2) 0 (0, 0, 0)).2.1,
          (realignFrom p seq pre post motif (seq.length / motif.length + 2) 0 (0, 0, 0)).2.2,
          (realignFrom p seq pre post motif (seq.length / motif.length + 2) 0 (0, 0, 0)).1) := by
  have hlen : motif.length ≠ 0 := by
    simpa using h
  simp [expansion_aware_realign, cppDivNat, hlen]

theorem realign_nil_none (p : ScoreParams) (seq pre post : List Char) :
    expansion_aware_realign p seq pre post [] = none := by
  simp [expansion_aware_realign, cppDivNat]

/-! Classifier lemmas. -/

theorem classify_none_iff (p : ScoreParams) (seq motif : List Char)
    (sp nc sc pl mg : Int) :
    classify_realigned_read p seq motif sp nc sc pl mg = none ↔
      (¬(sc < scoreThreshold p seq.length ∨ nc = 0) ∧
       ¬(pl - mg ≤ sp ∧ sp ≤ pl + nc * (motif.length : Int) + mg) ∧
       ¬(pl - mg ≤ sp + (seq.length : Int) - 1 ∧
         sp + (seq.length : Int) - 1 ≤ pl + nc * (motif.length : Int) + mg) ∧
       ¬(sp < pl ∧ sp + (seq.length : Int) - 1 > pl + nc * (motif.length : Int))) := by
  simp only [classify_realigned_read]
  split_ifs with h1 h2 h3 h4 h5
  · exact iff_of_false (by simp) (fun hr => hr.1 h1)
  · exact iff_of_false (by simp) (fun hr => hr.2.1 h2.1)
  · exact iff_of_false (by simp) (fun hr => hr.2.1 h3.1)
  · exact iff_of_false (by simp) (fun hr => hr.2.2.1 h4.2)
  · exact iff_of_false (by simp) (fun hr => hr.2.2.2 h5)
  · refine iff_of_true rfl ?_
    have hs : ¬(pl - mg ≤ sp ∧ sp ≤ pl + nc * (motif.length : Int) + mg) := by
      intro ha
      by_cases hb : pl - mg ≤ sp + (seq.length : Int) - 1 ∧
          sp + (seq.length : Int) - 1 ≤ pl + nc * (motif.length : Int) + mg
      · exact h2 ⟨ha, hb⟩
      · exact h3 ⟨ha, hb⟩
    have hb' : ¬(pl - mg ≤ sp + (seq.length : Int) - 1 ∧
        sp + (seq.length : Int) - 1 ≤ pl + nc * (motif.length : Int) + mg) :=
      fun hb => h4 ⟨hs, hb⟩
    exact ⟨h1, hs, hb', h5⟩

/-! calc_score access lemmas. -/

theorem vectorAt_isSome {α : Type} (l : List α) (idx : Int) :
    (vectorAt l idx).isSome ↔ 0 ≤ idx ∧ idx.toNat < l.length := by
  rw [vectorAt]
  split_ifs with h
  · simp
    omega
  · rw [Option.isSome_iff_ne_none, ne_eq, List.getElem?_eq_none_iff]
    omega

theorem vectorAt_eq_some {α : Type} (l : List α) (idx : Int) (h1 : 0 ≤ idx)
    (h2 : idx.toNat < l.length) : ∃ a, vectorAt l idx = some a := by
  have := (vectorAt_isSome l idx).mpr ⟨h1, h2⟩
  exact Option.isSome_iff_exists.mp this

theorem listSetAt_eq_some {α : Type} (l : List α) (idx : Int) (a : α) (h1 : 0 ≤ idx)
    (h2 : idx.toNat < l.length) : listSetAt l idx a = some (l.set idx.toNat a) := by
  rw [listSetAt, if_neg (by omega), if_pos h2]

theorem vectorAt_mem {α : Type} {l : List α} {idx : Int} {a : α}
    (h : vectorAt l idx = some a) : a ∈ l := by
  rw [vectorAt] at h
  split_ifs at h
  exact List.getElem?_mem h

/-! Claim theorems. -/

/-- Claim C10: expansion_aware_realign divides read_len by period at
its loop bound, so an empty motif (period 0) makes the call undefined
(division by zero), and for every non-empty motif the call is total:
the realigner returns none exactly when the motif is empty. -/
theorem c10_nonempty_motif_precondition (p : ScoreParams)
    (seq pre post motif : List Char) :
    expansion_aware_realign p seq pre post motif = none ↔ motif = [] := by
  constructor
  · intro h
    by_contra hne
    rw [realign_eq p seq pre post motif hne] at h
    exact Option.noConfusion h
  · rintro rfl
    exact realign_nil_none p seq pre post

/-- Claim C3: classify_realigned_read signals failure (none, the
return-false branch) exactly when the geometry matches none of the four
structural classes and the UNKNOWN guard does not fire: the result is
the explicit failure, never SR_UNKNOWN or any other class, precisely
when the score/copy guard fails to fire, neither endpoint lies in the
margin-widened repeat interval, and the enclosing test fails. -/
theorem c3_classification_failure (p : ScoreParams) (seq motif : List Char)
    (sp nc sc pl mg : Int) :
    classify_realigned_read p seq motif sp nc sc pl mg = none ↔
      (¬(sc < scoreThreshold p seq.length ∨ nc = 0) ∧
       ¬(pl - mg ≤ sp ∧ sp ≤ pl + nc * (motif.length : Int) + mg) ∧
       ¬(pl - mg ≤ sp + (seq.length : Int) - 1 ∧
         sp + (seq.length : Int) - 1 ≤ pl + nc * (motif.length : Int) + mg) ∧
       ¬(sp < pl ∧ sp + (seq.length : Int) - 1 > pl + nc * (motif.length : Int))) :=
  classify_none_iff p seq motif sp nc sc pl mg

/-- Claim C6: after the fill, every cell of the score matrix is
non-negative, row 0 and column 0 are still 0, and every interior cell
is the maximum of 0 and the three neighbor-derived candidates (the
calc_score recurrence), which is what preserves the invariant at each
fill step. -/
theorem c6_matrix_invariant (p : ScoreParams) (s1 s2 : List Char) (i j : Nat) :
    0 ≤ matCell p s1 s2 i j ∧ matCell p s1 s2 0 j = 0 ∧ matCell p s1 s2 i 0 = 0 ∧
    (i < s1.length → j < s2.length →
      matCell p s1 s2 (i + 1) (j + 1) =
        cellMax (matCell p s1 s2 i j +
            (if s1.getD i 'A' = s2.getD j 'A' then p.MATCH_SCORE else p.MISMATCH_SCORE))
          (matCell p s1 s2 i (j + 1) + p.GAP_SCORE)
          (matCell p s1 s2 (i + 1) j + p.GAP_SCORE)) := by
  refine ⟨?_, ?_, ?_, ?_⟩
  · by_cases hi : i ≤ s1.length
    · by_cases hj : j ≤ s2.length
      · rw [matCell_eq p s1 s2 hi hj]
        exact cellScore_nonneg p s1 s2 i j
      · rw [matCell_oob_col p s1 s2 i (by omega)]
    · rw [matCell_oob_row p s1 s2 j (by omega)]
  · by_cases hj : j ≤ s2.length
    · rw [matCell_eq p s1 s2 (Nat.zero_le _) hj, cellScore_zero_left]
    · rw [matCell_oob_col p s1 s2 0 (by omega)]
  · by_cases hi : i ≤ s1.length
    · rw [matCell_eq p s1 s2 hi (Nat.zero_le _), cellScore_zero_right]
    · rw [matCell_oob_row p s1 s2 0 (by omega)]
  · intro hi hj
    rw [matCell_eq p s1 s2 (by omega) (by omega),
      matCell_eq p s1 s2 (by omega) (by omega),
      matCell_eq p s1 s2 (by omega) (by omega),
      matCell_eq p s1 s2 (by omega) (by omega),
      cellScore_succ]

/-- Witness for C6 at a concrete input: both interior-cell hypotheses
hold at (0, 0) for seq1 = "AC", seq2 = "A", and the invariant holds
there. -/
theorem c6_witness :
    (0 < "AC".toList.length ∧ 0 < "A".toList.length) ∧
    0 ≤ matCell specParams "AC".toList "A".toList 0 0 ∧
    matCell specParams "AC".toList "A".toList 0 0 = 0 ∧
    matCell specParams "AC".toList "A".toList 0 0 = 0 ∧
    matCell specParams "AC".toList "A".toList 1 1 =
      cellMax (matCell specParams "AC".toList "A".toList 0 0 +
          (if "AC".toList.getD 0 'A' = "A".toList.getD 0 'A' then specParams.MATCH_SCORE
            else specParams.MISMATCH_SCORE))
        (matCell specParams "AC".toList "A".toList 0 1 + specParams.GAP_SCORE)
        (matCell specParams "AC".toList "A".toList 1 0 + specParams.GAP_SCORE) := by
  have h := c6_matrix_invariant specParams "AC".toList "A".toList 0 0
  exact ⟨⟨by decide, by decide⟩, h.1, h.2.1, h.2.2.1, h.2.2.2 (by decide) (by decide)⟩

/-- Claim C7: if no cell of the filled matrix exceeds zero, the builder
succeeds and reports score 0 with the sentinel start position -1. -/
theorem c7_no_alignment (p : ScoreParams) (s1 s2 : List Char)
    (h : ∀ ij ∈ scanCells (s1.length + 1) (s2.length + 1),
      matCell p s1 s2 ij.1 ij.2 ≤ 0) :
    create_score_matrix p s1 s2 = (-1, 0) := by
  rcases create_cases p s1 s2 with ⟨he, _⟩ | ⟨ij, hmem, _, hpos, _⟩
  · exact he
  · have := h ij hmem
    omega

/-- Witness for C7: for seq1 = "A", seq2 = "T" every cell is 0, and the
builder reports (-1, 0). -/
theorem c7_witness :
    (∀ ij ∈ scanCells ("A".toList.length + 1) ("T".toList.length + 1),
      matCell specParams "A".toList "T".toList ij.1 ij.2 ≤ 0) ∧
    create_score_matrix specParams "A".toList "T".toList = (-1, 0) :=
  ⟨by decide, c7_no_alignment specParams "A".toList "T".toList (by decide)⟩

/-- Claim C8: for a fixed read and fixed realigner output, if the
classifier returns a non-UNKNOWN class at threshold fraction t1, then
at any larger fraction t2 it returns that same class or SR_UNKNOWN —
never a different non-UNKNOWN class (the threshold only gates the
UNKNOWN branch; the geometric branches are unchanged). -/
theorem c8_threshold_monotone (M MIS G : Int) (t1 t2 : ℚ) (hle : t1 ≤ t2)
    (seq motif : List Char) (sp nc sc pl mg : Int) (c : SingleReadType)
    (hc : classify_realigned_read ⟨M, MIS, G, t1⟩ seq motif sp nc sc pl mg = some c)
    (hne : c ≠ SingleReadType.SR_UNKNOWN) :
    classify_realigned_read ⟨M, MIS, G, t2⟩ seq motif sp nc sc pl mg = some c ∨
      classify_realigned_read ⟨M, MIS, G, t2⟩ seq motif sp nc sc pl mg
        = some SingleReadType.SR_UNKNOWN := by
  simp only [classify_realigned_read] at hc ⊢
  by_cases hu1 : sc < scoreThreshold ⟨M, MIS, G, t1⟩ seq.length ∨ nc = 0
  · rw [if_pos hu1] at hc
    exact absurd (Option.some.inj hc).symm hne
  · rw [if_neg hu1] at hc
    by_cases hu2 : sc < scoreThreshold ⟨M, MIS, G, t2⟩ seq.length ∨ nc = 0
    · right
      rw [if_pos hu2]
    · left
      rw [if_neg hu2]
      exact hc

/-- Witness for C8: threshold fractions 4/5 ≤ 9/10; at 4/5 the scenario
read classifies as SR_IRR (non-UNKNOWN), and at 9/10 the result is
SR_IRR or SR_UNKNOWN. -/
theorem c8_witness :
    specParams.MATCH_PERC_THRESHOLD ≤ specParamsHi.MATCH_PERC_THRESHOLD ∧
    classify_realigned_read
        ⟨3, -1, -2, specParams.MATCH_PERC_THRESHOLD⟩
        "AAAACACACATTTT".toList "CA".toList 0 3 42 4 7
      = some SingleReadType.SR_IRR ∧
    SingleReadType.SR_IRR ≠ SingleReadType.SR_UNKNOWN ∧
    (classify_realigned_read
        ⟨3, -1, -2, specParamsHi.MATCH_PERC_THRESHOLD⟩
        "AAAACACACATTTT".toList "CA".toList 0 3 42 4 7
      = some SingleReadType.SR_IRR ∨
     classify_realigned_read
        ⟨3, -1, -2, specParamsHi.MATCH_PERC_THRESHOLD⟩
        "AAAACACACATTTT".toList "CA".toList 0 3 42 4 7
      = some SingleReadType.SR_UNKNOWN) :=
  ⟨by decide, by decide, by decide,
    c8_threshold_monotone 3 (-1) (-2)
      specParams.MATCH_PERC_THRESHOLD specParamsHi.MATCH_PERC_THRESHOLD (by decide)
      "AAAACACACATTTT".toList "CA".toList 0 3 42 4 7 SingleReadType.SR_IRR
      (by decide) (by decide)⟩

/-- Claim C9 counterexample: the indices (i, j) = (0, 1) lie inside the
allocated 2 x 2 matrix for seq1 = "A", seq2 = "A" (rows 0..1, columns
0..1), yet the Cell Scorer errors: it accesses seq1.at(i-1) =
seq1.at(-1), which throws. -/
theorem c9_counterexample :
    calc_score specParams 0 1 ['A'] ['A'] [[0, 0], [0, 0]] = none ∧
    ((0 : Int) ≤ 0 ∧ (0 : Int) < 2 ∧ (0 : Int) ≤ 1 ∧ (1 : Int) < 2) ∧
    ([[(0 : Int), 0], [0, 0]].length = 2 ∧ ['A'].length + 1 = 2) := by
  refine ⟨by decide, by decide, by decide, by decide⟩

/-- Claim C9 (amended): on a matrix allocated for seq1 against seq2
(len(seq1)+1 rows, each of len(seq2)+1 columns), calc_score succeeds
exactly when (i, j) is an interior index — 1 ≤ i ≤ len(seq1) and
1 ≤ j ≤ len(seq2); outside that region (including the allocated row 0
and column 0, where the accesses at index -1 throw) it reports the
error. -/
theorem c9_calc_score_bounds (p : ScoreParams) (seq1 seq2 : List Char) (i j : Int)
    (mat : List (List Int)) (hrows : mat.length = seq1.length + 1)
    (hcols : ∀ r ∈ mat, r.length = seq2.length + 1) :
    (calc_score p i j seq1 seq2 mat).isSome ↔
      1 ≤ i ∧ i ≤ (seq1.length : Int) ∧ 1 ≤ j ∧ j ≤ (seq2.length : Int) := by
  constructor
  · intro hs
    cases h1 : vectorAt seq1 (i - 1) with
    | none => simp [calc_score, h1] at hs
    | some c1 =>
      cases h2 : vectorAt seq2 (j - 1) with
      | none => simp [calc_score, h1, h2] at hs
      | some c2 =>
        have hb1 := (vectorAt_isSome seq1 (i - 1)).mp (by rw [h1]; rfl)
        have hb2 := (vectorAt_isSome seq2 (j - 1)).mp (by rw [h2]; rfl)
        omega
  · rintro ⟨hi1, hi2, hj1, hj2⟩
    obtain ⟨c1, hc1⟩ := vectorAt_eq_some seq1 (i - 1) (by omega) (by omega)
    obtain ⟨c2, hc2⟩ := vectorAt_eq_some seq2 (j - 1) (by omega) (by omega)
    obtain ⟨r1, hr1⟩ := vectorAt_eq_some mat (i - 1) (by omega) (by omega)
    have hr1len : r1.length = seq2.length + 1 := hcols r1 (vectorAt_mem hr1)
    obtain ⟨d0, hd0⟩ := vectorAt_eq_some r1 (j - 1) (by omega) (by omega)
    obtain ⟨u0, hu0⟩ := vectorAt_eq_some r1 j (by omega) (by omega)
    obtain ⟨ri, hri⟩ := vectorAt_eq_some mat i (by omega) (by omega)
    have hrilen : ri.length = seq2.length + 1 := hcols ri (vectorAt_mem hri)
    obtain ⟨l0, hl0⟩ := vectorAt_eq_some ri (j - 1) (by omega) (by omega)
    simp only [calc_score, hc1, hc2, hr1, hd0, hu0, hri, hl0, Option.bind_eq_bind,
      Option.some_bind]
    rw [listSetAt_eq_some ri j _ (by omega) (by omega), Option.some_bind,
      listSetAt_eq_some mat i _ (by omega) (by omega)]
    rfl

/-- Witness for C9 (amended) at a concrete interior index: for the
allocated 2 x 2 matrix of "A" against "A", calc_score succeeds at
(1, 1). -/
theorem c9_witness :
    ([[(0 : Int), 0], [0, 0]].length = ['A'].length + 1) ∧
    (∀ r ∈ [[(0 : Int), 0], [0, 0]], r.length = ['A'].length + 1) ∧
    ((calc_score specParams 1 1 ['A'] ['A'] [[0, 0], [0, 0]]).isSome ↔
      1 ≤ (1 : Int) ∧ (1 : Int) ≤ (['A'].length : Int) ∧ 1 ≤ (1 : Int) ∧
        (1 : Int) ≤ (['A'].length : Int)) :=
  ⟨by decide, by decide,
    c9_calc_score_bounds specParams ['A'] ['A'] 1 1 [[0, 0], [0, 0]]
      (by decide) (by decide)⟩

/-- Claim C2 counterexample: read "TT", motif "C": the loop bound is
⌊2/1⌋ + 2 = 4, no trial reaches the perfect score (so the early exit
never fires), yet k = 4 — the value ⌊len/period⌋ + 2 the claim says is
tried — is never tried: the realigner runs exactly k = 0, 1, 2, 3. -/
theorem c2_counterexample :
    "TT".toList.length / "C".toList.length + 2 = 4 ∧
    (∀ k ∈ triedFrom specParams "TT".toList [] [] "C".toList 4 0,
      trialScore specParams "TT".toList [] [] "C".toList k
        ≠ perfectScore specParams "TT".toList) ∧
    4 ∉ triedFrom specParams "TT".toList [] [] "C".toList 4 0 ∧
    triedFrom specParams "TT".toList [] [] "C".toList 4 0 = [0, 1, 2, 3] := by
  refine ⟨by decide, by decide, by decide, by decide⟩

/-- Claim C2 (amended): for every read and non-empty motif, when no
trial reaches the perfect score (the early exit never fires), the
realigner tries exactly the copy counts k = 0 up to
⌊len(read)/period⌋ + 1 inclusive — the loop bound ⌊len/period⌋ + 2 is
exclusive, not inclusive as the claim stated. -/
theorem c2_tried_range (p : ScoreParams) (seq pre post motif : List Char)
    (hm : motif ≠ [])
    (hnp : ∀ j < seq.length / motif.length + 2,
      trialScore p seq pre post motif j ≠ perfectScore p seq) :
    triedFrom p seq pre post motif (seq.length / motif.length + 2) 0
      = idxFrom 0 (seq.length / motif.length + 2) :=
  triedFrom_all p seq pre post motif _ 0 (fun j _ h2 => hnp j (by omega))

/-- Witness for C2 (amended): read "TT", motif "C" — no perfect trial,
and the tried copy counts are exactly 0, 1, 2, 3. -/
theorem c2_witness :
    ("C".toList ≠ []) ∧
    (∀ j < "TT".toList.length / "C".toList.length + 2,
      trialScore specParams "TT".toList [] [] "C".toList j
        ≠ perfectScore specParams "TT".toList) ∧
    triedFrom specParams "TT".toList [] [] "C".toList
        ("TT".toList.length / "C".toList.length + 2) 0
      = idxFrom 0 ("TT".toList.length / "C".toList.length + 2) :=
  ⟨by decide, by decide,
    c2_tried_range specParams "TT".toList [] [] "C".toList (by decide) (by decide)⟩

/-- Claim C5 counterexample: read "TT", motif "C", empty flanks — every
trial scores 0, so the greatest score is 0, first achieved by trial
k = 0 whose reported position is -3; the claim says the realigner
returns that trial's triple, but it returns the initializer triple
(0, 0, 0), whose position 0 is not the trial's position -3. -/
theorem c5_counterexample :
    expansion_aware_realign specParams "TT".toList [] [] "C".toList = some (0, 0, 0) ∧
    (∀ k ∈ triedFrom specParams "TT".toList [] [] "C".toList 4 0,
      trialScore specParams "TT".toList [] [] "C".toList k
        ≤ trialScore specParams "TT".toList [] [] "C".toList 0) ∧
    trialPos specParams "TT".toList [] [] "C".toList 0 = -3 ∧
    (0 : Int) ≠ -3 := by
  refine ⟨by decide, by decide, by decide, by decide⟩

/-- Claim C5 (amended): the realigner returns the triple
(nCopy, position, score) of the greatest-scoring tried trial, smallest
copy count among equal scores, and the loop stops right after the first
trial that reaches the perfect score — provided some tried trial scores
strictly above 0; when no trial beats the 0-initialized incumbent, the
initializer triple (0, 0, 0) is returned instead (its position is not
the winning trial's reported position). -/
theorem c5_best_trial (p : ScoreParams) (seq pre post motif : List Char)
    (nc ps sc : Int)
    (hre : expansion_aware_realign p seq pre post motif = some (nc, ps, sc))
    (hpos : ∃ k ∈ triedFrom p seq pre post motif (seq.length / motif.length + 2) 0,
      0 < trialScore p seq pre post motif k) :
    ∃ k ∈ triedFrom p seq pre post motif (seq.length / motif.length + 2) 0,
      nc = (k : Int) ∧ ps = trialPos p seq pre post motif k ∧
      sc = trialScore p seq pre post motif k ∧
      (∀ j ∈ triedFrom p seq pre post motif (seq.length / motif.length + 2) 0,
        trialScore p seq pre post motif j ≤ trialScore p seq pre post motif k) ∧
      (∀ j ∈ triedFrom p seq pre post motif (seq.length / motif.length + 2) 0,
        trialScore p seq pre post motif j = trialScore p seq pre post motif k → k ≤ j) ∧
      (∀ j ∈ triedFrom p seq pre post motif (seq.length / motif.length + 2) 0,
        ∀ i' < j, trialScore p seq pre post motif i' ≠ perfectScore p seq) := by
  have hm : motif ≠ [] := by
    rintro rfl
    rw [realign_nil_none] at hre
    exact Option.noConfusion hre
  rw [realign_eq p seq pre post motif hm] at hre
  obtain ⟨e1, e2, e3⟩ :
      (realignFrom p seq pre post motif (seq.length / motif.length + 2) 0 (0, 0, 0)).2.1 = nc ∧
      (realignFrom p seq pre post motif (seq.length / motif.length + 2) 0 (0, 0, 0)).2.2 = ps ∧
      (realignFrom p seq pre post motif (seq.length / motif.length + 2) 0 (0, 0, 0)).1 = sc := by
    have h := Option.some.inj hre
    exact ⟨congrArg (fun t => t.1) h, congrArg (fun t => t.2.1) h,
      congrArg (fun t => t.2.2) h⟩
  rw [realignFrom_eq_maxFold] at e1 e2 e3
  rcases maxFold_char (trialScore p seq pre post motif)
      (fun kk => ((kk : Int), trialPos p seq pre post motif kk))
      (triedFrom p seq pre post motif (seq.length / motif.length + 2) 0) (0, 0, 0) with
    ⟨heq, hall⟩ | ⟨l1, x, l2, hd, he, _, hmax, hfirst⟩
  · obtain ⟨k0, hk0, hk0pos⟩ := hpos
    have h0 : trialScore p seq pre post motif k0 ≤ 0 := hall k0 hk0
    omega
  · have hx : x ∈ triedFrom p seq pre post motif (seq.length / motif.length + 2) 0 := by
      rw [hd]
      exact List.mem_append.mpr (Or.inr (by simp))
    rw [he] at e1 e2 e3
    have e1' : (x : Int) = nc := e1
    have e2' : trialPos p seq pre post motif x = ps := e2
    have e3' : trialScore p seq pre post motif x = sc := e3
    have hpw := triedFrom_pairwise p seq pre post motif (seq.length / motif.length + 2) 0
    rw [hd] at hpw
    have hcross := (List.pairwise_cons.mp (List.pairwise_append.mp hpw).2.1).1
    refine ⟨x, hx, e1'.symm, e2'.symm, e3'.symm, hmax, ?_, ?_⟩
    · intro j hj hjeq
      rw [hd] at hj
      rcases List.mem_append.mp hj with hj1 | hj2
      · have := hfirst j hj1
        omega
      · rcases List.mem_cons.mp hj2 with rfl | hj2
        · exact le_refl _
        · exact le_of_lt (hcross j hj2)
    · intro j hj i' hlt'
      exact triedFrom_no_earlier_perfect p seq pre post motif _ 0 j hj i'
        (Nat.zero_le _) hlt'

/-- Witness for C5 (amended): the scenario read — trial 3 scores 42 > 0,
and the realigner's output (3, 0, 42) is trial 3's triple. -/
theorem c5_witness :
    expansion_aware_realign specParams "AAAACACACATTTT".toList "AAAA".toList
        "TTTT".toList "CA".toList = some (3, 0, 42) ∧
    (∃ k ∈ triedFrom specParams "AAAACACACATTTT".toList "AAAA".toList "TTTT".toList
        "CA".toList ("AAAACACACATTTT".toList.length / "CA".toList.length + 2) 0,
      0 < trialScore specParams "AAAACACACATTTT".toList "AAAA".toList "TTTT".toList
        "CA".toList k) ∧
    (∃ k ∈ triedFrom specParams "AAAACACACATTTT".toList "AAAA".toList "TTTT".toList
        "CA".toList ("AAAACACACATTTT".toList.length / "CA".toList.length + 2) 0,
      (3 : Int) = (k : Int) ∧
      (0 : Int) = trialPos specParams "AAAACACACATTTT".toList "AAAA".toList
        "TTTT".toList "CA".toList k ∧
      (42 : Int) = trialScore specParams "AAAACACACATTTT".toList "AAAA".toList
        "TTTT".toList "CA".toList k ∧
      (∀ j ∈ triedFrom specParams "AAAACACACATTTT".toList "AAAA".toList "TTTT".toList
          "CA".toList ("AAAACACACATTTT".toList.length / "CA".toList.length + 2) 0,
        trialScore specParams "AAAACACACATTTT".toList "AAAA".toList "TTTT".toList
            "CA".toList j
          ≤ trialScore specParams "AAAACACACATTTT".toList "AAAA".toList "TTTT".toList
            "CA".toList k) ∧
      (∀ j ∈ triedFrom specParams "AAAACACACATTTT".toList "AAAA".toList "TTTT".toList
          "CA".toList ("AAAACACACATTTT".toList.length / "CA".toList.length + 2) 0,
        trialScore specParams "AAAACACACATTTT".toList "AAAA".toList "TTTT".toList
            "CA".toList j
          = trialScore specParams "AAAACACACATTTT".toList "AAAA".toList "TTTT".toList
            "CA".toList k → k ≤ j) ∧
      (∀ j ∈ triedFrom specParams "AAAACACACATTTT".toList "AAAA".toList "TTTT".toList
          "CA".toList ("AAAACACACATTTT".toList.length / "CA".toList.length + 2) 0,
        ∀ i' < j,
          trialScore specParams "AAAACACACATTTT".toList "AAAA".toList "TTTT".toList
              "CA".toList i'
            ≠ perfectScore specParams "AAAACACACATTTT".toList)) :=
  ⟨by decide, ⟨3, by decide, by decide⟩,
    c5_best_trial specParams "AAAACACACATTTT".toList "AAAA".toList "TTTT".toList
      "CA".toList 3 0 42 (by decide) ⟨3, by decide, by decide⟩⟩

/-- Claim C4: the score the realigner reports is at most
len(read) * MATCH_SCORE, with equality exactly when the winning
hypothesis (pre_flank + motif * nCopy + post_flank) contains the read
base-for-base over the read's full length (for a scoring scheme with a
positive match reward and negative mismatch/gap penalties). -/
theorem c4_realigner_score (p : ScoreParams) (seq pre post motif : List Char)
    (nc ps sc : Int)
    (hre : expansion_aware_realign p seq pre post motif = some (nc, ps, sc))
    (hM : 0 < p.MATCH_SCORE) (hMis : p.MISMATCH_SCORE < 0) (hG : p.GAP_SCORE < 0) :
    sc ≤ (seq.length : Int) * p.MATCH_SCORE ∧
      (sc = (seq.length : Int) * p.MATCH_SCORE ↔
        ∃ t, matchesAt (var_realign_string pre post motif nc.toNat) seq t) := by
  have hm : motif ≠ [] := by
    rintro rfl
    rw [realign_nil_none] at hre
    exact Option.noConfusion hre
  rw [realign_eq p seq pre post motif hm] at hre
  obtain ⟨e1, e3⟩ :
      (realignFrom p seq pre post motif (seq.length / motif.length + 2) 0 (0, 0, 0)).2.1 = nc ∧
      (realignFrom p seq pre post motif (seq.length / motif.length + 2) 0 (0, 0, 0)).1 = sc := by
    have h := Option.some.inj hre
    exact ⟨congrArg (fun t => t.1) h, congrArg (fun t => t.2.2) h⟩
  rw [realignFrom_eq_maxFold] at e1 e3
  have htr : ∀ k, trialScore p seq pre post motif k
      = (create_score_matrix p (var_realign_string pre post motif k) seq).2 :=
    fun _ => rfl
  rcases maxFold_char (trialScore p seq pre post motif)
      (fun kk => ((kk : Int), trialPos p seq pre post motif kk))
      (triedFrom p seq pre post motif (seq.length / motif.length + 2) 0) (0, 0, 0) with
    ⟨heq, hall⟩ | ⟨l1, x, l2, hd, he, _, hmax, _⟩
  · rw [heq] at e1 e3
    have hsc : (0 : Int) = sc := e3
    have hnc : (0 : Int) = nc := e1
    constructor
    · rw [← hsc]
      exact mul_nonneg (by positivity) hM.le
    · match hL : seq.length with
      | 0 =>
        constructor
        · intro _
          refine ⟨0, ?_, ?_⟩
          · rw [hL]
            omega
          · intro jj hjj
            rw [hL] at hjj
            omega
        · intro _
          rw [← hsc]
          simp
      | n + 1 =>
        have hLM : (0 : Int) < ((n + 1 : Nat) : Int) * p.MATCH_SCORE := by
          apply mul_pos _ hM
          positivity
        constructor
        · intro h
          rw [← hsc] at h
          exact absurd h.symm (ne_of_gt hLM)
        · rintro ⟨t, ht⟩
          have hnc0 : nc.toNat = 0 := by
            rw [← hnc]
            rfl
          rw [hnc0] at ht
          have heq0 : trialScore p seq pre post motif 0
              = (seq.length : Int) * p.MATCH_SCORE := by
            rw [htr 0]
            exact (sw_perfect_iff p hM hMis hG
              (var_realign_string pre post motif 0) seq).mpr ⟨t, ht⟩
          have h0mem : (0 : Nat) ∈ triedFrom p seq pre post motif
              (seq.length / motif.length + 2) 0 :=
            mem_triedFrom_self p seq pre post motif _ 0 (Nat.succ_pos _)
          have h0 : trialScore p seq pre post motif 0 ≤ 0 := hall 0 h0mem
          rw [hL] at heq0
          exact absurd heq0 (by linarith)
  · rw [he] at e1 e3
    have e1' : (x : Int) = nc := e1
    have e3' : trialScore p seq pre post motif x = sc := e3
    have hncx : nc.toNat = x := by
      rw [← e1']
      rfl
    constructor
    · rw [← e3', htr x]
      exact sw_score_le p hM hMis hG (var_realign_string pre post motif x) seq
    · rw [← e3', htr x, hncx]
      exact sw_perfect_iff p hM hMis hG (var_realign_string pre post motif x) seq

/-- Witness for C4 at the scenario input: the realigner reports
(3, 0, 42); 42 ≤ 14 * 3 and equality holds, with the read occurring in
the winning hypothesis (at offset 0). -/
theorem c4_witness :
    expansion_aware_realign specParams "AAAACACACATTTT".toList "AAAA".toList
        "TTTT".toList "CA".toList = some (3, 0, 42) ∧
    0 < specParams.MATCH_SCORE ∧ specParams.MISMATCH_SCORE < 0 ∧
    specParams.GAP_SCORE < 0 ∧
    ((42 : Int) ≤ ("AAAACACACATTTT".toList.length : Int) * specParams.MATCH_SCORE ∧
      ((42 : Int) = ("AAAACACACATTTT".toList.length : Int) * specParams.MATCH_SCORE ↔
        ∃ t, matchesAt (var_realign_string "AAAA".toList "TTTT".toList "CA".toList
          ((3 : Int).toNat)) "AAAACACACATTTT".toList t)) :=
  ⟨by decide, by decide, by decide, by decide,
    c4_realigner_score specParams "AAAACACACATTTT".toList "AAAA".toList "TTTT".toList
      "CA".toList 3 0 42 (by decide) (by decide) (by decide) (by decide)⟩

/-- Claim C1 counterexample: on motif "CA", pre_flank "AAAA", post_flank
"TTTT", prefix_length 4, read "AAAACACACATTTT", the pipeline yields
nCopy = 3 and score 42 = 14 * MATCH_SCORE as claimed, but the class is
SR_IRR, not SR_ENCLOSING: MARGIN = 4*2 - 1 = 7 puts both read endpoints
0 and 13 inside [start_str - MARGIN, end_str + MARGIN] = [-3, 17], and
the IRR branch is checked before the enclosing branch. -/
theorem c1_counterexample :
    expansion_aware_realign specParams "AAAACACACATTTT".toList "AAAA".toList
        "TTTT".toList "CA".toList = some (3, 0, 42) ∧
    classify_realigned_read specParams "AAAACACACATTTT".toList "CA".toList 0 3 42 4
        (currentMARGIN "CA".toList) = some SingleReadType.SR_IRR ∧
    some SingleReadType.SR_IRR ≠ some SingleReadType.SR_ENCLOSING := by
  refine ⟨by decide, by decide, by decide⟩

/-- Claim C1 (amended): the scenario yields nCopy = 3 and
score = len(read) * MATCH_SCORE, and the classifier returns SR_IRR (the
margin-widened repeat interval swallows both endpoints and the IRR
branch precedes the ENCLOSING branch). -/
theorem c1_scenario :
    expansion_aware_realign specParams "AAAACACACATTTT".toList "AAAA".toList
        "TTTT".toList "CA".toList = some (3, 0, 42) ∧
    (42 : Int) = ("AAAACACACATTTT".toList.length : Int) * specParams.MATCH_SCORE ∧
    classify_realigned_read specParams "AAAACACACATTTT".toList "CA".toList 0 3 42 4
        (currentMARGIN "CA".toList) = some SingleReadType.SR_IRR := by
  refine ⟨by decide, by decide, by decide⟩

end GangSTR
